import Mathlib

/-!
Shallow embedding of the core time-series indicator engine, the periodic
return aggregator and the portfolio valuation aggregator of the `stocks`
repository (src/analysis/moving_average.py, src/analysis/macd.py,
src/analysis/returns.py, src/utils/utils.py, src/portfolio.py).

Price columns are modelled as `List ℚ` (one entry per row of the input
table, rows in original order); nullable derived columns as
`List (Option ℚ)` (`none` = the NaN/null a pandas operation leaves where a
value is undefined).  Dates are modelled as proleptic-Gregorian calendar
dates with explicit day arithmetic, mirroring `pandas.Timestamp` /
`DateOffset` ordering and offsets.  Divisions whose denominator the Python
source can turn to zero (there they produce NaN / a raised error rather
than a number) are modelled with `Option`, `none` standing for the
ill-defined result.
-/

/-! ### Moving averages (src/analysis/moving_average.py) -/

/-- One step of `Series.rolling(window=w).mean()`: the trailing window of
observations ending at row `t` (at most `w` of them, fewer near the start). -/
def rollingWindow (w : ℕ) (xs : List ℚ) (t : ℕ) : List ℚ :=
  (xs.take (t + 1)).drop (t + 1 - w)

/-- `Series.rolling(window=w).mean()` of pandas: at each row the arithmetic
mean of the trailing `w` observations, null while fewer than `w`
observations are available (`min_periods` defaults to the window size). -/
def rollingMeanCol (w : ℕ) (xs : List ℚ) : List (Option ℚ) :=
  (List.range xs.length).map fun t =>
    let win := rollingWindow w xs t
    if win.length < w then none else some (win.sum / (win.length : ℚ))

/-- `simple_moving_average` (src/analysis/moving_average.py, lines 14-48) for
one source column and one window: copies the input and adds the column
`SMA_<w>` next to it.  A row of the returned table is the pair
(source value, SMA value). -/
def simple_moving_average (w : ℕ) (xs : List ℚ) : List (ℚ × Option ℚ) :=
  xs.zip (rollingMeanCol w xs)

/-- The running numerator/denominator recursion of pandas
`Series.ewm(span=w).mean()` with its default `adjust=True`:
`num[t] = x[t] + β·num[t-1]`, `den[t] = 1 + β·den[t-1]` (both starting from
0 before the first row), output `num[t]/den[t]`, where `β = 1 - α`. -/
def ewmAux (β : ℚ) (num den : ℚ) : List ℚ → List ℚ
  | [] => []
  | x :: xs =>
    let num2 := x + β * num
    let den2 := 1 + β * den
    num2 / den2 :: ewmAux β num2 den2 xs

/-- `Series.ewm(span=w).mean()` of pandas (default `adjust=True`), with the
span-derived smoothing factor `α = 2/(span+1)`. -/
def ewmMean (span : ℕ) (xs : List ℚ) : List ℚ :=
  let α : ℚ := 2 / ((span : ℚ) + 1)
  ewmAux (1 - α) 0 0 xs

/-- `exp_moving_average` (src/analysis/moving_average.py, lines 51-90) for one
source column and one window: copies the input and adds the column
`EMA_<w>` next to it. -/
def exp_moving_average (w : ℕ) (xs : List ℚ) : List (ℚ × Option ℚ) :=
  xs.zip ((ewmMean w xs).map some)

/-! ### MACD (src/analysis/macd.py) -/

/-- The columns `macd` adds to the stock data table, together with the price
column it was computed from. -/
structure MacdResult where
  price : List ℚ
  ema12 : List ℚ
  ema26 : List ℚ
  macdCol : List ℚ
  dea : List ℚ
  osc : List ℚ
  deriving Repr, DecidableEq

/-- `macd` (src/analysis/macd.py, lines 18-52): `EMA_12` and `EMA_26` of the
price column via `exp_moving_average`, then `MACD = EMA_12 - EMA_26`,
`DEA = MACD.ewm(span=9).mean()`, `OSC = MACD - DEA`. -/
def macd (xs : List ℚ) : MacdResult :=
  let e12 := ewmMean 12 xs
  let e26 := ewmMean 26 xs
  let m := e12.zipWith (· - ·) e26
  let dea := ewmMean 9 m
  let osc := m.zipWith (· - ·) dea
  ⟨xs, e12, e26, m, dea, osc⟩

/-! ### Returns (src/analysis/returns.py) -/

/-- `calculate_daily_returns` (src/analysis/returns.py, lines 18-32):
`df[price_col].diff(1) / df[price_col].shift(1)` — null on the first row,
`(x[t] - x[t-1]) / x[t-1]` afterwards.  Output rows pair the source value
with the new `DailyReturns` value. -/
def calculate_daily_returns (xs : List ℚ) : List (ℚ × Option ℚ) :=
  xs.zip ((List.range xs.length).map fun t =>
    match t with
    | 0 => none
    | Nat.succ s => some ((xs.getD (s + 1) 0 - xs.getD s 0) / xs.getD s 0))

/-- One row of the table handed to `calculate_grouped_returns`: its `Date`
value (as a day number), the value of the price column, and the value of the
composite group key (the tuple of the `group_cols` values). -/
structure PRow (K : Type) where
  date : ℤ
  price : ℚ
  key : K
  deriving Repr, DecidableEq

/-- One row of the intermediate `df_grouped` table of
`calculate_grouped_returns`: the `first`/`last` aggregations of the price
column, the `last` aggregation of `Date`, and the new returns column
`(price_last - price_first)/price_first`. -/
structure GroupRec where
  price_first : ℚ
  price_last : ℚ
  date_last : ℤ
  ret : ℚ
  deriving Repr, DecidableEq

/-- The distinct group keys of the table.  (pandas `groupby` emits the group
records sorted by key; we keep one record per distinct key in the order
`List.dedup` produces.  The order of `df_grouped` rows cannot influence the
by-value left merge below except by the relative order of multiply-matched
rows, and every theorem below works where each row matches at most once.) -/
def groupKeys {K : Type} [DecidableEq K] (rows : List (PRow K)) : List K :=
  (rows.map (·.key)).dedup

/-- One record of the `df_grouped` table of `calculate_grouped_returns`
(src/analysis/returns.py, lines 52-58): for the group of key `k`, `first`
and `last` of the price column and `last` of `Date`, all taken in original
row order, plus the new returns column
`(price_last - price_first)/price_first`. -/
def groupRec {K : Type} [DecidableEq K] (rows : List (PRow K)) (k : K) : GroupRec :=
  let g := rows.filter fun r => r.key = k
  let pf := (g.head?.map (·.price)).getD 0
  let pl := (g.getLast?.map (·.price)).getD 0
  { price_first := pf
    price_last := pl
    date_last := (g.getLast?.map (·.date)).getD 0
    ret := (pl - pf) / pf }

/-- The `df_grouped` table of `calculate_grouped_returns`: one aggregation
record per distinct group key. -/
def groupRecs {K : Type} [DecidableEq K] (rows : List (PRow K)) : List GroupRec :=
  (groupKeys rows).map (groupRec rows)

/-- `df.merge(df_grouped[[new_col, date_last]], how=left, left_on=DateCol,
right_on=date_last)`: each left row is emitted once per matching group
record (carrying the returns value of that record), or once with null when no
group record matches. -/
def mergeLeft {K : Type} (rows : List (PRow K)) (grecs : List GroupRec) :
    List (PRow K × Option ℚ) :=
  rows.flatMap fun r =>
    match grecs.filter fun g => g.date_last = r.date with
    | [] => [(r, none)]
    | ms => ms.map fun g => (r, some g.ret)

/-- `calculate_grouped_returns` (src/analysis/returns.py, lines 35-63):
aggregate per composite group key, then left-join the single per-group
returns value back onto the series, matched by exact equality between each
date of each row and the last date of the group. -/
def calculate_grouped_returns {K : Type} [DecidableEq K] (rows : List (PRow K)) :
    List (PRow K × Option ℚ) :=
  mergeLeft rows (groupRecs rows)

/-- `Series.mean()` of pandas: null (NaN) on an empty series, the arithmetic
mean otherwise. -/
def listMean (l : List ℚ) : Option ℚ :=
  if l = [] then none else some (l.sum / (l.length : ℚ))

/-- One row of the table handed to `dividend_summary`: its `year` column and
the (nullable) dividend-yield column `div_type`. -/
structure DivRow where
  year : ℤ
  div : Option ℚ
  deriving Repr, DecidableEq

/-- The summary record `dividend_summary` returns. -/
structure DivSummary where
  overall : Option ℚ
  last5 : Option ℚ
  lastYearAvg : Option ℚ
  deriving Repr, DecidableEq

/-- `dividend_summary` (src/analysis/returns.py, lines 115-127).  The
wall-clock year `date.today().year` is the injected parameter `today_year`.
`last_year = today_year - 1`, `five_years_ago = last_year - 5`; the table is
filtered to rows whose yield value is non-null and strictly positive, and
the three averages are the mean of the yield column of that filtered table,
of its rows with `year >= five_years_ago`, and of its rows with
`year >= last_year`. -/
def dividend_summary (today_year : ℤ) (rows : List DivRow) : DivSummary :=
  let last_year := today_year - 1
  let five_years_ago := last_year - 5
  let df := rows.filter fun r =>
    match r.div with
    | some v => decide (0 < v)
    | none => false
  { overall := listMean (df.filterMap (·.div))
    last5 := listMean ((df.filter fun r => decide (five_years_ago ≤ r.year)).filterMap (·.div))
    lastYearAvg := listMean ((df.filter fun r => decide (last_year ≤ r.year)).filterMap (·.div)) }

/-! ### Calendar dates and the period reducer (src/utils/utils.py) -/

/-- A calendar date (proleptic Gregorian, year ≥ 1), the model of a
`pandas.Timestamp` at day resolution.  `m` and `d` are 1-based. -/
structure SDate where
  y : ℕ
  m : ℕ
  d : ℕ
  deriving Repr, DecidableEq

/-- Gregorian leap-year test. -/
def isLeap (y : ℕ) : Bool :=
  (y % 4 = 0 && y % 100 ≠ 0) || y % 400 = 0

/-- Days in a month of a given year. -/
def daysInMonth (y m : ℕ) : ℕ :=
  if m = 2 then (if isLeap y then 29 else 28)
  else if m = 4 || m = 6 || m = 9 || m = 11 then 30
  else 31

/-- Days strictly before month `m` in a year (`m` 1-based). -/
def daysBeforeMonth (y m : ℕ) : ℕ :=
  let base :=
    if m ≤ 1 then 0 else if m = 2 then 31 else if m = 3 then 59
    else if m = 4 then 90 else if m = 5 then 120 else if m = 6 then 151
    else if m = 7 then 181 else if m = 8 then 212 else if m = 9 then 243
    else if m = 10 then 273 else if m = 11 then 304 else 334
  if 3 ≤ m && isLeap y then base + 1 else base

/-- Days strictly before January 1 of year `y`, counted from January 1 of
year 1 (day 0). -/
def daysBeforeYear (y : ℕ) : ℕ :=
  365 * (y - 1) + ((y - 1) / 4 + (y - 1) / 400 - (y - 1) / 100)

/-- The day number of a date: the linear timeline `pandas.Timestamp`
comparisons and day offsets act on. -/
def toDays (dt : SDate) : ℤ :=
  ((daysBeforeYear dt.y + daysBeforeMonth dt.y dt.m + (dt.d - 1) : ℕ) : ℤ)

/-- `date - DateOffset(months=n)` of pandas: shift the month index, clamping
the day of month to the length of the target month. -/
def subMonths (dt : SDate) (n : ℤ) : SDate :=
  let idx : ℤ := (dt.y : ℤ) * 12 + (dt.m : ℤ) - 1 - n
  let y2 : ℕ := (idx.fdiv 12).toNat
  let m2 : ℕ := (idx - 12 * idx.fdiv 12).toNat + 1
  ⟨y2, m2, min dt.d (daysInMonth y2 m2)⟩

/-- `date - DateOffset(years=n)` of pandas: shift the year, clamping
February 29 to February 28 in a non-leap target year. -/
def subYears (dt : SDate) (n : ℤ) : SDate :=
  let y2 : ℕ := ((dt.y : ℤ) - n).toNat
  ⟨y2, dt.m, min dt.d (daysInMonth y2 dt.m)⟩

/-- `df[date_col].max()`: the maximum date of the column (any date of the
list realising the maximal day number; default for the empty column). -/
def maxD (rows : List SDate) : SDate :=
  rows.foldl (fun a r => if toDays a < toDays r then r else a) (rows.headD ⟨1970, 1, 1⟩)

/-- Python `int(s)` on the digits part of the period string: optional sign
followed by at least one decimal digit.  (`none` models the `ValueError`
Python raises on an unparsable literal.) -/
def digitVal (c : Char) : Option ℕ :=
  if c.isDigit then some (c.toNat - 48) else none

/-- Accumulates decimal digits left to right; `none` on a non-digit. -/
def natFromDigitsAux : List Char → ℕ → Option ℕ
  | [], acc => some acc
  | c :: cs, acc =>
    match digitVal c with
    | some d => natFromDigitsAux cs (10 * acc + d)
    | none => none

/-- A non-empty all-digit character list as a number. -/
def natFromDigits (cs : List Char) : Option ℕ :=
  if cs.isEmpty then none else natFromDigitsAux cs 0

/-- Python `int(·)` on a string literal (optional sign, decimal digits). -/
def parseInt (s : String) : Option ℤ :=
  match s.toList with
  | '-' :: rest => (natFromDigits rest).map fun n => -(n : ℤ)
  | '+' :: rest => (natFromDigits rest).map fun n => (n : ℤ)
  | cs => (natFromDigits cs).map fun n => (n : ℤ)

/-- The failure of `reduce_data_period`.  The source raises `ValueError`
both for an unparsable integer part (from `int(period[:-1])`) and for a unit
suffix outside `d`/`m`/`y`; the error taxonomy of the spec names both
`InvalidPeriod`, so both map onto the single constructor here. -/
inductive PeriodError where
  | invalidPeriod
  deriving Repr, DecidableEq

/-- `reduce_data_period` (src/utils/utils.py, lines 117-149).  `"max"`
returns a copy of the input; otherwise the trailing character is the unit,
the leading characters are parsed with `int`, the cutoff is the maximum date
minus the offset, and exactly the rows with `date >= cutoff` are kept.
Date comparisons happen on the `toDays` timeline. -/
def reduce_data_period (rows : List SDate) (period : String) :
    Except PeriodError (List SDate) :=
  if period = "max" then .ok rows
  else
    match parseInt (period.dropRight 1) with
    | none => .error .invalidPeriod
    | some q =>
      let unit := period.back
      let lastDate := maxD rows
      if unit = 'd' then
        .ok (rows.filter fun r => decide (toDays lastDate - q ≤ toDays r))
      else if unit = 'm' then
        .ok (rows.filter fun r => decide (toDays (subMonths lastDate q) ≤ toDays r))
      else if unit = 'y' then
        .ok (rows.filter fun r => decide (toDays (subYears lastDate q) ≤ toDays r))
      else .error .invalidPeriod

/-- The columns `add_year_month_quarter` adds (src/utils/utils.py, lines
49-70): `year`, `month`, `quarter = ceil(month/3)` and the label
`Q = "{year}-Q{quarter}"`. -/
structure CalCols where
  year : ℕ
  month : ℕ
  quarter : ℕ
  q : String
  deriving Repr, DecidableEq

/-- `add_year_month_quarter` (src/utils/utils.py, lines 49-70): copies the
input and derives the four calendar columns from the date column. -/
def add_year_month_quarter (rows : List SDate) : List (SDate × CalCols) :=
  rows.map fun dt =>
    let quarter := (dt.m + 2) / 3
    (dt, ⟨dt.y, dt.m, quarter, toString dt.y ++ "-Q" ++ toString quarter⟩)

/-! ### Portfolio valuation (src/portfolio.py) -/

/-- One transaction of the ledger of a symbol: the `transact_quantity` (signed:
positive = buy, negative = sell) and `transact_price` columns.  The date
plays no role in `_summarize_stock` and is omitted. -/
structure Trade where
  transact_quantity : ℚ
  transact_price : ℚ
  deriving Repr, DecidableEq

/-- The numbers `_summarize_stock` computes for one symbol. -/
structure TxnSummary where
  average_paid : ℚ
  total_paid : ℚ
  total_bought : ℚ
  total_sold : ℚ
  total_realized : ℚ
  remaining_holding : ℚ
  remaining_invested : ℚ
  remaining_unrealized : ℚ
  gol : ℚ
  frac_return : ℚ
  deriving Repr, DecidableEq

/-- `Portfolio._summarize_stock` (src/portfolio.py, lines 94-127).  The two
divisions the source leaves unguarded (`total_paid / total_bought` and
`gol / remaining_invested`) are ill-defined when their denominator is zero —
there the numpy arithmetic of the source silently produces NaN rather than
a number (no guard and no raised error exists in the source); the embedding
returns `none` for those ledgers and `some` of every computed quantity
otherwise. -/
def summarize_stock (trades : List Trade) (current_price : ℚ) : Option TxnSummary :=
  let buys := trades.filter fun t => decide (0 < t.transact_quantity)
  let total_bought := (buys.map (·.transact_quantity)).sum
  let total_paid := (buys.map fun t => t.transact_quantity * t.transact_price).sum
  if total_bought = 0 then none
  else
    let average_paid := total_paid / total_bought
    let sells := trades.filter fun t => decide (t.transact_quantity < 0)
    let total_sold := (sells.map (·.transact_quantity)).sum
    let total_realized :=
      if sells.isEmpty then 0
      else (sells.map fun t => t.transact_quantity * t.transact_price).sum
    let remaining_holding := total_bought + total_sold
    let remaining_invested := remaining_holding * average_paid
    let remaining_unrealized := remaining_holding * current_price
    let gol := remaining_unrealized - remaining_invested
    if remaining_invested = 0 then none
    else some
      { average_paid := average_paid
        total_paid := total_paid
        total_bought := total_bought
        total_sold := total_sold
        total_realized := total_realized
        remaining_holding := remaining_holding
        remaining_invested := remaining_invested
        remaining_unrealized := remaining_unrealized
        gol := gol
        frac_return := gol / remaining_invested }

/-- The `Action` tag of a ledger row (src/portfolio.py, line 72):
`Buy` when `x>0`, else `Sell`. -/
def actionTag (q : ℚ) : String :=
  if 0 < q then "Buy" else "Sell"

/-- The ledger of the portfolio test scenario of the spec:
`[(d1, +20, 1.00), (d2, -10, 2.00), (d3, +100, 1.50)]`. -/
def scenarioLedger : List Trade :=
  [⟨20, 1⟩, ⟨-10, 2⟩, ⟨100, 3 / 2⟩]
/-! ### Helper lemmas -/

theorem ewmAux_length (β num den : ℚ) (xs : List ℚ) :
    (ewmAux β num den xs).length = xs.length := by
  induction xs generalizing num den with
  | nil => rfl
  | cons x xs ih => simp [ewmAux, ih]

theorem ewmMean_length (s : ℕ) (xs : List ℚ) : (ewmMean s xs).length = xs.length := by
  simp [ewmMean, ewmAux_length]

theorem ewmAux_getD (β : ℚ) (xs : List ℚ) :
    ∀ (num den : ℚ) (j : ℕ), j < xs.length →
      (ewmAux β num den xs).getD j 0 =
        (β ^ (j + 1) * num + ∑ i ∈ Finset.range (j + 1), β ^ i * xs.getD (j - i) 0) /
        (β ^ (j + 1) * den + ∑ i ∈ Finset.range (j + 1), (β : ℚ) ^ i) := by
  induction xs with
  | nil => intro num den j hj; simp at hj
  | cons x xs ih =>
    intro num den j hj
    match j with
    | 0 =>
      simp [ewmAux]
      ring_nf
    | Nat.succ j =>
      have hj2 : j < xs.length := by simpa using hj
      have step : (ewmAux β num den (x :: xs)).getD (j + 1) 0 =
          (ewmAux β (x + β * num) (1 + β * den) xs).getD j 0 := by
        simp [ewmAux]
      rw [step, ih (x + β * num) (1 + β * den) j hj2]
      have hnum : ∑ i ∈ Finset.range (j + 2), β ^ i * (x :: xs).getD (j + 1 - i) 0 =
          (∑ i ∈ Finset.range (j + 1), β ^ i * xs.getD (j - i) 0) + β ^ (j + 1) * x := by
        rw [Finset.sum_range_succ]
        have h1 : ∀ i ∈ Finset.range (j + 1),
            β ^ i * (x :: xs).getD (j + 1 - i) 0 = β ^ i * xs.getD (j - i) 0 := by
          intro i hi
          have hile : i ≤ j := Nat.lt_succ_iff.mp (Finset.mem_range.mp hi)
          have : j + 1 - i = (j - i) + 1 := by omega
          rw [this, List.getD_cons_succ]
        rw [Finset.sum_congr rfl h1]
        simp
      have hden : ∑ i ∈ Finset.range (j + 2), (β : ℚ) ^ i =
          (∑ i ∈ Finset.range (j + 1), (β : ℚ) ^ i) + β ^ (j + 1) := by
        rw [Finset.sum_range_succ]
      rw [hnum, hden]
      simp only [Nat.succ_eq_add_one]
      congr 1 <;> ring

/-! ### Claims -/

/-- C1: For the transaction ledger `[(d1, +20, 1.00), (d2, -10, 2.00),
(d3, +100, 1.50)]` of one symbol with current price 3.00, the step-5 summary
formulas of `Portfolio._summarize_stock` yield
`average_paid = (20*1+100*1.5)/120`, `remaining_holding = 110`,
`remaining_invested = 155.83` (to 2 decimals), `remaining_unrealized = 330`,
`gain = 174.17` (to 2 decimals), `percent_gain ≈ 111.7 %`, and total
realized proceeds (`-total_realized`, the `Realized Amount` of the summary
row) `= 20`. -/
theorem c1_portfolio_scenario :
    ((summarize_stock scenarioLedger 3).map (·.average_paid) =
      some ((20 * 1 + 100 * (3 / 2)) / 120)) ∧
    ((summarize_stock scenarioLedger 3).map (·.remaining_holding) = some 110) ∧
    (|((summarize_stock scenarioLedger 3).map (·.remaining_invested)).getD 0 -
      15583 / 100| < 1 / 100) ∧
    ((summarize_stock scenarioLedger 3).map (·.remaining_unrealized) = some 330) ∧
    (|((summarize_stock scenarioLedger 3).map (·.gol)).getD 0 - 17417 / 100| < 1 / 100) ∧
    (1117 / 10 ≤ ((summarize_stock scenarioLedger 3).map fun s =>
      s.frac_return * 100).getD 0) ∧
    (((summarize_stock scenarioLedger 3).map fun s => s.frac_return * 100).getD 0 <
      1118 / 10) ∧
    ((summarize_stock scenarioLedger 3).map fun s => -s.total_realized) = some 20 := by
  norm_num [scenarioLedger, summarize_stock, List.filter, abs]

/-- C2: For every symbol whose ledger contains no buy transaction
(no row with positive quantity), `total_bought` is 0, so the
`average_paid = total_paid / total_bought` division of
`Portfolio._summarize_stock` divides by zero and no summary row is
produced.  (In the source this division is *not* guarded: the numpy
arithmetic silently yields NaN, which the spec flags as behaviour the
reimplementation must replace with an explicit error.) -/
theorem c2_no_buys_division_by_zero (trades : List Trade) (p : ℚ)
    (h : ∀ t ∈ trades, t.transact_quantity ≤ 0) :
    summarize_stock trades p = none := by
  have hb : trades.filter (fun t => decide (0 < t.transact_quantity)) = [] :=
    List.filter_eq_nil_iff.mpr fun t ht => by simpa using not_lt.mpr (h t ht)
  simp [summarize_stock, hb]

/-- Witness for C2: a ledger holding only the sell `(-10, 2.00)`. -/
theorem c2_no_buys_division_by_zero_witness :
    summarize_stock [⟨-10, 2⟩] 3 = none :=
  c2_no_buys_division_by_zero [⟨-10, 2⟩] 3 (by
    intro t ht
    simp at ht
    rw [ht]
    norm_num)

/-- C10: The `Action` tag of a ledger row is `"Buy"` exactly when the
signed quantity is strictly positive; every row with quantity ≤ 0 — a
zero-quantity transaction included — is tagged `"Sell"`. -/
theorem c10_action_tag_sign (q : ℚ) :
    (actionTag q = "Buy" ↔ 0 < q) ∧ (q ≤ 0 → actionTag q = "Sell") := by
  refine ⟨⟨fun h => ?_, fun h => by rw [actionTag, if_pos h]⟩, fun h => ?_⟩
  · by_contra hq
    rw [actionTag, if_neg hq] at h
    exact absurd h (by decide)
  · rw [actionTag, if_neg (not_lt.mpr h)]

/-- Witness for C10: the zero-quantity transaction is tagged `"Sell"`. -/
theorem c10_action_tag_sign_witness : actionTag 0 = "Sell" :=
  (c10_action_tag_sign 0).2 le_rfl

theorem zipWith_sub_getD (as bs : List ℚ) (t : ℕ) (h1 : t < as.length) (h2 : t < bs.length) :
    (List.zipWith (fun a b => a - b) as bs).getD t 0 = as.getD t 0 - bs.getD t 0 := by
  rw [List.getD_eq_getElem?_getD, List.getElem?_zipWith,
    List.getElem?_eq_getElem h1, List.getElem?_eq_getElem h2,
    List.getD_eq_getElem?_getD, List.getD_eq_getElem?_getD,
    List.getElem?_eq_getElem h1, List.getElem?_eq_getElem h2]
  rfl

/-- C4 (counterexample): On the series `[0, 1]` with span 9, the coded
exponential average (`ewm(span=9).mean()`, pandas default `adjust=True`)
gives `5/9` at the second row, while the plain recursion
`EMA[1] = α·x[1] + (1-α)·EMA[0]` with `α = 2/(9+1)` claimed by the spec
gives `1/5`. -/
theorem c4_ewm_not_plain_recursion :
    ewmMean 9 [0, 1] = [0, 5 / 9] ∧
    (2 / ((9 : ℚ) + 1)) * 1 + (1 - 2 / ((9 : ℚ) + 1)) * 0 = 1 / 5 ∧
    ((5 : ℚ) / 9) ≠ 1 / 5 := by
  norm_num [ewmMean, ewmAux]

/-- C4 (amended): For every series and span ≥ 1 the exponential moving
average column has a value on every row (no nulls); its first row equals the
first observed value; and every row `t` is the *adjust-weighted* average
`EMA[t] = (∑ i ≤ t, (1-α)^i·x[t-i]) / (∑ i ≤ t, (1-α)^i)` with
`α = 2/(span+1)` — the pandas `ewm(span).mean()` default — whose
denominator is positive; not the plain recursion
`EMA[t] = α·x[t] + (1-α)·EMA[t-1]`. -/
theorem c4_ewm_adjusted_weighted (span : ℕ) (hspan : 1 ≤ span) (xs : List ℚ) :
    (ewmMean span xs).length = xs.length ∧
    (xs ≠ [] → (ewmMean span xs).headD 0 = xs.headD 0) ∧
    (∀ t < xs.length,
      (ewmMean span xs).getD t 0 =
        (∑ i ∈ Finset.range (t + 1), (1 - 2 / ((span : ℚ) + 1)) ^ i * xs.getD (t - i) 0) /
        (∑ i ∈ Finset.range (t + 1), (1 - 2 / ((span : ℚ) + 1)) ^ i)) ∧
    (∀ t : ℕ, 0 < ∑ i ∈ Finset.range (t + 1), (1 - 2 / ((span : ℚ) + 1)) ^ i) := by
  have hβ : 0 ≤ 1 - 2 / ((span : ℚ) + 1) := by
    have h1 : (1 : ℚ) ≤ (span : ℚ) := by exact_mod_cast hspan
    have h2 : 2 / ((span : ℚ) + 1) ≤ 1 := by
      rw [div_le_one (by linarith)]
      linarith
    linarith
  have hform : ∀ t < xs.length,
      (ewmMean span xs).getD t 0 =
        (∑ i ∈ Finset.range (t + 1), (1 - 2 / ((span : ℚ) + 1)) ^ i * xs.getD (t - i) 0) /
        (∑ i ∈ Finset.range (t + 1), (1 - 2 / ((span : ℚ) + 1)) ^ i) := by
    intro t ht
    have h := ewmAux_getD (1 - 2 / ((span : ℚ) + 1)) xs 0 0 t ht
    simpa [ewmMean] using h
  refine ⟨ewmMean_length span xs, ?_, hform, ?_⟩
  · intro hne
    match xs, hne with
    | x :: xs, _ =>
      have h0 := hform 0 (by simp)
      rw [List.headD_eq_head?, List.head?_eq_getElem?, ← List.getD_eq_getElem?_getD,
        List.headD_eq_head?, List.head?_eq_getElem?, ← List.getD_eq_getElem?_getD]
      simpa using h0
  · intro t
    have h1 : (1 : ℚ) ≤ ∑ i ∈ Finset.range (t + 1), (1 - 2 / ((span : ℚ) + 1)) ^ i := by
      have := Finset.single_le_sum
        (f := fun i => (1 - 2 / ((span : ℚ) + 1)) ^ i)
        (fun i _ => pow_nonneg hβ i) (Finset.mem_range.mpr (Nat.succ_pos t))
      simpa using this
    linarith

/-- Witness for C4 (amended), at span 2 and series `[0, 1]`. -/
theorem c4_ewm_adjusted_weighted_witness :
    (1 ≤ 2) ∧
    ((ewmMean 2 [0, 1]).getD 1 0 =
      (∑ i ∈ Finset.range 2, (1 - 2 / ((2 : ℚ) + 1)) ^ i * ([0, 1] : List ℚ).getD (1 - i) 0) /
      (∑ i ∈ Finset.range 2, (1 - 2 / ((2 : ℚ) + 1)) ^ i)) :=
  ⟨by norm_num, (c4_ewm_adjusted_weighted 2 (by norm_num) [0, 1]).2.2.1 1 (by norm_num)⟩

/-- C5: For every series and window `w ≥ 1`, the simple moving average
column is null on rows `0 .. w-2`, equals the arithmetic mean of the
trailing `w` observations on every row `t ≥ w-1`, and with `w = 1`
reproduces the source column exactly. -/
theorem c5_sma_window_semantics (w : ℕ) (xs : List ℚ) (hw : 1 ≤ w) :
    (∀ t < xs.length, t + 1 < w → (rollingMeanCol w xs)[t]? = some none) ∧
    (∀ t < xs.length, w ≤ t + 1 →
      (rollingMeanCol w xs)[t]? =
        some (some (((xs.drop (t + 1 - w)).take w).sum / (w : ℚ)))) ∧
    rollingMeanCol 1 xs = xs.map some := by
  have hcol : ∀ t < xs.length, (rollingMeanCol w xs)[t]? =
      some (if (rollingWindow w xs t).length < w then none
            else some ((rollingWindow w xs t).sum / ((rollingWindow w xs t).length : ℚ))) := by
    intro t ht
    simp [rollingMeanCol, List.getElem?_range ht]
  have hlen : ∀ t, t < xs.length → (rollingWindow w xs t).length = (t + 1) - (t + 1 - w) := by
    intro t ht
    rw [rollingWindow, List.length_drop, List.length_take]
    omega
  refine ⟨?_, ?_, ?_⟩
  · intro t ht htw
    rw [hcol t ht, if_pos (by rw [hlen t ht]; omega)]
  · intro t ht hwt
    have hl : (rollingWindow w xs t).length = w := by rw [hlen t ht]; omega
    rw [hcol t ht, if_neg (by rw [hl]; exact lt_irrefl w), hl]
    have hwin : rollingWindow w xs t = (xs.drop (t + 1 - w)).take w := by
      rw [rollingWindow, List.drop_take]
      congr 1
      omega
    rw [hwin]
  · refine List.ext_getElem? fun i => ?_
    by_cases hi : i < xs.length
    · have hcol1 : (rollingMeanCol 1 xs)[i]? =
          some (if (rollingWindow 1 xs i).length < 1 then none
            else some ((rollingWindow 1 xs i).sum / ((rollingWindow 1 xs i).length : ℚ))) := by
        simp [rollingMeanCol, List.getElem?_range hi]
      have hl : (rollingWindow 1 xs i).length = 1 := by
        rw [rollingWindow, List.length_drop, List.length_take]
        omega
      have hwin : rollingWindow 1 xs i = [xs.getD i 0] := by
        rw [rollingWindow, List.drop_take]
        have : i + 1 - (i + 1 - 1) = 1 := by omega
        rw [this]
        rw [List.take_one_drop_eq_of_lt_length (by omega)]
        simp [List.getD_eq_getElem?_getD, List.getElem?_eq_getElem hi]
    
      rw [hcol1, if_neg (by rw [hl]; exact lt_irrefl 1), hl, hwin,
        List.getElem?_map, List.getElem?_eq_getElem hi]
      simp [List.getD_eq_getElem?_getD, List.getElem?_eq_getElem hi]
    · have h1 : (rollingMeanCol 1 xs)[i]? = none := by
        rw [List.getElem?_eq_none_iff]
        simpa [rollingMeanCol] using not_lt.mp hi
      have h2 : (xs.map some)[i]? = none := by
        rw [List.getElem?_eq_none_iff]
        simpa using not_lt.mp hi
      rw [h1, h2]

/-- Witness for C5, at window 2 on the series `[1, 2, 3]`. -/
theorem c5_sma_window_semantics_witness :
    (rollingMeanCol 2 [1, 2, 3])[0]? = some none ∧
    (rollingMeanCol 2 [1, 2, 3])[2]? =
      some (some (((([1, 2, 3] : List ℚ).drop 1).take 2).sum / (2 : ℚ))) :=
  ⟨(c5_sma_window_semantics 2 [1, 2, 3] (by norm_num)).1 0 (by norm_num) (by norm_num),
   (c5_sma_window_semantics 2 [1, 2, 3] (by norm_num)).2.1 2 (by norm_num) (by norm_num)⟩

/-- C6: After applying the MACD engine to a price series, the stored
columns satisfy `MACD = EMA_12 - EMA_26` and `OSC = MACD - DEA` exactly on
every row, where `DEA` is the stored 9-span exponential average of the MACD
column; all columns cover every row of the series. -/
theorem c6_macd_equations (xs : List ℚ) :
    ((macd xs).macdCol.length = xs.length ∧ (macd xs).osc.length = xs.length) ∧
    ((macd xs).ema12 = ewmMean 12 xs ∧ (macd xs).ema26 = ewmMean 26 xs ∧
      (macd xs).dea = ewmMean 9 (macd xs).macdCol) ∧
    (∀ t < xs.length,
      (macd xs).macdCol.getD t 0 = (macd xs).ema12.getD t 0 - (macd xs).ema26.getD t 0 ∧
      (macd xs).osc.getD t 0 = (macd xs).macdCol.getD t 0 - (macd xs).dea.getD t 0) := by
  have hm : (macd xs).macdCol = (ewmMean 12 xs).zipWith (fun a b => a - b) (ewmMean 26 xs) := rfl
  have hmlen : (macd xs).macdCol.length = xs.length := by
    rw [hm, List.length_zipWith, ewmMean_length, ewmMean_length]
    omega
  have hdea : (macd xs).dea = ewmMean 9 (macd xs).macdCol := rfl
  have hosc : (macd xs).osc = (macd xs).macdCol.zipWith (fun a b => a - b) (macd xs).dea := rfl
  have hoscl : (macd xs).osc.length = xs.length := by
    rw [hosc, List.length_zipWith, hdea, ewmMean_length, hmlen]
    omega
  refine ⟨⟨hmlen, hoscl⟩, ⟨rfl, rfl, hdea⟩, fun t ht => ⟨?_, ?_⟩⟩
  · rw [hm]
    exact zipWith_sub_getD _ _ t (by rw [ewmMean_length]; exact ht) (by rw [ewmMean_length]; exact ht)
  · rw [hosc]
    exact zipWith_sub_getD _ _ t (by rw [hmlen]; exact ht)
      (by rw [hdea, ewmMean_length, hmlen]; exact ht)

/-- Witness for C6, at the series `[1, 2]` and row 1. -/
theorem c6_macd_equations_witness :
    (macd [1, 2]).macdCol.getD 1 0 =
      (macd [1, 2]).ema12.getD 1 0 - (macd [1, 2]).ema26.getD 1 0 ∧
    (macd [1, 2]).osc.getD 1 0 =
      (macd [1, 2]).macdCol.getD 1 0 - (macd [1, 2]).dea.getD 1 0 :=
  (c6_macd_equations [1, 2]).2.2 1 (by norm_num)

theorem foldl_maxD_le (l : List SDate) :
    ∀ a : SDate,
      toDays a ≤ toDays (l.foldl (fun x r => if toDays x < toDays r then r else x) a) ∧
      ∀ r ∈ l, toDays r ≤ toDays (l.foldl (fun x r => if toDays x < toDays r then r else x) a) := by
  induction l with
  | nil => intro a; exact ⟨le_refl _, by simp⟩
  | cons b l ih =>
    intro a
    simp only [List.foldl_cons]
    have step : toDays a ≤ toDays (if toDays a < toDays b then b else a) := by
      split
      · exact le_of_lt (by assumption)
      · exact le_refl _
    have stepb : toDays b ≤ toDays (if toDays a < toDays b then b else a) := by
      split
      · exact le_refl _
      · exact le_of_not_lt (by assumption)
    refine ⟨le_trans step (ih _).1, ?_⟩
    intro r hr
    rcases List.mem_cons.mp hr with h | h
    · subst h; exact le_trans stepb (ih _).1
    · exact (ih _).2 r h

theorem foldl_maxD_mem (l : List SDate) :
    ∀ a : SDate, l.foldl (fun x r => if toDays x < toDays r then r else x) a ∈ a :: l := by
  induction l with
  | nil => intro a; simp
  | cons b l ih =>
    intro a
    simp only [List.foldl_cons]
    rcases List.mem_cons.mp (ih (if toDays a < toDays b then b else a)) with h1 | h1
    · rw [h1]
      split
      · exact List.mem_cons_of_mem _ (List.mem_cons_self _ _)
      · exact List.mem_cons_self _ _
    · exact List.mem_cons_of_mem _ (List.mem_cons_of_mem _ h1)

/-- C8: `reduce_data_period` returns all rows unchanged for `"max"`;
for `"5d"` it returns exactly the rows whose date is at least the maximum
date of the series minus 5 days (`maxD` being an upper bound of, and for a
non-empty series a member of, the date column); and every period string
whose unit suffix is none of `d`, `m`, `y` fails with the `InvalidPeriod`
error. -/
theorem c8_reduce_period_spec (rows : List SDate) :
    (reduce_data_period rows "max" = .ok rows) ∧
    (reduce_data_period rows "5d" =
      .ok (rows.filter fun r => decide (toDays (maxD rows) - 5 ≤ toDays r))) ∧
    (∀ r ∈ rows, toDays r ≤ toDays (maxD rows)) ∧
    (rows ≠ [] → maxD rows ∈ rows) ∧
    (∀ p : String, p ≠ "max" → p.back ≠ 'd' → p.back ≠ 'm' → p.back ≠ 'y' →
      reduce_data_period rows p = .error .invalidPeriod) := by
  refine ⟨by simp [reduce_data_period], ?_, ?_, ?_, ?_⟩
  · unfold reduce_data_period
    rw [if_neg (by decide : ¬ ("5d" : String) = "max")]
    have hp : parseInt ("5d".dropRight 1) = some 5 := by decide
    rw [hp]
    rfl
  · intro r hr
    exact (foldl_maxD_le rows _).2 r hr
  · intro h
    rcases List.mem_cons.mp (foldl_maxD_mem rows (rows.headD ⟨1970, 1, 1⟩)) with h1 | h1
    · have h2 : maxD rows = rows.headD ⟨1970, 1, 1⟩ := h1
      rw [h2]
      match rows, h with
      | r :: l, _ => exact List.mem_cons_self _ _
    · exact h1
  · intro p hmax hd hm hy
    unfold reduce_data_period
    rw [if_neg hmax]
    rcases hp2 : parseInt (p.dropRight 1) with _ | q
    · rfl
    · show (if p.back = 'd' then
          Except.ok (rows.filter fun r => decide (toDays (maxD rows) - q ≤ toDays r))
        else if p.back = 'm' then
          Except.ok (rows.filter fun r => decide (toDays (subMonths (maxD rows) q) ≤ toDays r))
        else if p.back = 'y' then
          Except.ok (rows.filter fun r => decide (toDays (subYears (maxD rows) q) ≤ toDays r))
        else Except.error PeriodError.invalidPeriod) = Except.error PeriodError.invalidPeriod
      rw [if_neg hd, if_neg hm, if_neg hy]

/-- Witness for C8: a concrete two-row series; its maximum date is a member
of it, and the period string `"5x"` (bad unit suffix) is rejected. -/
theorem c8_reduce_period_spec_witness :
    maxD [⟨2020, 1, 1⟩, ⟨2020, 1, 10⟩] ∈ ([⟨2020, 1, 1⟩, ⟨2020, 1, 10⟩] : List SDate) ∧
    reduce_data_period [⟨2020, 1, 1⟩, ⟨2020, 1, 10⟩] "5x" = .error .invalidPeriod :=
  ⟨(c8_reduce_period_spec _).2.2.2.1 (by decide),
   (c8_reduce_period_spec _).2.2.2.2 "5x" (by decide) (by decide) (by decide) (by decide)⟩

/-- C9 (counterexample): With wall-clock year 2026 and the dividend
series `[(year 2020, yield 1), (year 2026, yield 3)]`: the computed
"last 5 years" average is `some 2` — it includes the year-2020 row (six
complete years back) and the partial current year 2026 — while the mean
over exactly the trailing 5 complete years 2021..2025 is empty (`none`);
likewise the computed "last year" average is `some 3` (a current-year row),
while the mean over exactly the most recent complete year 2025 is empty. -/
theorem c9_dividend_partial_year_cex :
    ((dividend_summary 2026 [⟨2020, some 1⟩, ⟨2026, some 3⟩]).last5 = some 2) ∧
    (listMean ((([⟨2020, some 1⟩, ⟨2026, some 3⟩] : List DivRow).filter
        (fun r => decide (2021 ≤ r.year) && decide (r.year ≤ 2025))).filterMap (·.div)) = none) ∧
    ((dividend_summary 2026 [⟨2020, some 1⟩, ⟨2026, some 3⟩]).lastYearAvg = some 3) ∧
    (listMean ((([⟨2020, some 1⟩, ⟨2026, some 3⟩] : List DivRow).filter
        (fun r => decide (r.year = 2025))).filterMap (·.div)) = none) ∧
    some (2 : ℚ) ≠ none ∧ some (3 : ℚ) ≠ none := by
  norm_num [dividend_summary, listMean, List.filter, List.filterMap]
  simp

/-- C9 (amended): `dividend_summary` filters to the rows whose yield
value is present and strictly positive and returns the overall mean yield,
the mean over the rows with `year ≥ current_year - 6` (the trailing **six**
complete years **plus the current partial year**), and the mean over the
rows with `year ≥ current_year - 1` (the most recent complete year **plus
the current partial year**). -/
theorem c9_dividend_summary_filters (Y : ℤ) (rows : List DivRow) :
    dividend_summary Y rows =
      { overall := listMean ((rows.filter fun r =>
            decide (0 < r.div.getD 0)).filterMap (·.div))
        last5 := listMean ((rows.filter fun r =>
            decide (0 < r.div.getD 0) && decide (Y - 6 ≤ r.year)).filterMap (·.div))
        lastYearAvg := listMean ((rows.filter fun r =>
            decide (0 < r.div.getD 0) && decide (Y - 1 ≤ r.year)).filterMap (·.div)) } := by
  have hpos : ∀ r : DivRow,
      (match r.div with | some v => decide (0 < v) | none => false) =
        decide (0 < r.div.getD 0) := by
    intro r
    match r with
    | ⟨y, none⟩ => simp
    | ⟨y, some v⟩ => simp
  simp only [dividend_summary, DivSummary.mk.injEq]
  refine ⟨?_, ?_, ?_⟩
  · rw [List.filter_congr fun x _ => hpos x]
  · rw [List.filter_filter]
    have h : (rows.filter fun a => decide (Y - 1 - 5 ≤ a.year) &&
          (match a.div with | some v => decide (0 < v) | none => false)) =
        rows.filter fun r => decide (0 < r.div.getD 0) && decide (Y - 6 ≤ r.year) := by
      refine List.filter_congr fun x _ => ?_
      rw [hpos x, Bool.and_comm]
      congr 1
      exact decide_eq_decide.mpr (by omega)
    rw [h]
  · rw [List.filter_filter]
    have h : (rows.filter fun a => decide (Y - 1 ≤ a.year) &&
          (match a.div with | some v => decide (0 < v) | none => false)) =
        rows.filter fun r => decide (0 < r.div.getD 0) && decide (Y - 1 ≤ r.year) := by
      refine List.filter_congr fun x _ => ?_
      rw [hpos x, Bool.and_comm]
    rw [h]

theorem mem_groupKeys_iff {K : Type} [DecidableEq K] (rows : List (PRow K)) (k : K) :
    k ∈ groupKeys rows ↔ (rows.filter fun r => r.key = k) ≠ [] := by
  rw [groupKeys, List.mem_dedup, List.mem_map]
  constructor
  · rintro ⟨r, hr, rfl⟩ hnil
    have hmem : r ∈ rows.filter fun x => x.key = r.key :=
      List.mem_filter.mpr ⟨hr, by simp⟩
    rw [hnil] at hmem
    exact absurd hmem (List.not_mem_nil r)
  · intro hne
    rcases List.exists_mem_of_ne_nil _ hne with ⟨r, hr⟩
    rcases List.mem_filter.mp hr with ⟨hr1, hr2⟩
    exact ⟨r, hr1, by simpa using hr2⟩

theorem date_inj {K : Type} {rows : List (PRow K)} (h : (rows.map (·.date)).Nodup)
    {a b : PRow K} (ha : a ∈ rows) (hb : b ∈ rows) (hab : a.date = b.date) : a = b :=
  List.inj_on_of_nodup_map h ha hb hab

theorem filter_eq_singleton_of_mem {α : Type} {l : List α} {p : α → Bool} {a : α}
    (hnd : l.Nodup) (ha : a ∈ l) (hp : ∀ x ∈ l, p x = true ↔ x = a) :
    l.filter p = [a] := by
  induction l with
  | nil => exact absurd ha (List.not_mem_nil a)
  | cons b l ih =>
    rcases List.mem_cons.mp ha with rfl | hmem
    · rw [List.filter_cons_of_pos ((hp a (List.mem_cons_self a l)).mpr rfl)]
      have hnil : l.filter p = [] := by
        rw [List.filter_eq_nil_iff]
        intro x hx hpx
        have hxa : x = a := (hp x (List.mem_cons_of_mem a hx)).mp hpx
        subst hxa
        exact (List.nodup_cons.mp hnd).1 hx
      rw [hnil]
    · have hba : b ≠ a := by
        intro he
        subst he
        exact (List.nodup_cons.mp hnd).1 hmem
      rw [List.filter_cons_of_neg (by
        intro hpb
        exact hba ((hp b (List.mem_cons_self b l)).mp hpb))]
      exact ih (List.nodup_cons.mp hnd).2 hmem fun x hx => hp x (List.mem_cons_of_mem b hx)

theorem flatMap_singleton_eq_map {α β : Type} (f : α → List β) (g : α → β) (l : List α)
    (h : ∀ r ∈ l, f r = [g r]) : l.flatMap f = l.map g := by
  induction l with
  | nil => rfl
  | cons a l ih =>
    rw [List.flatMap_cons, h a (List.mem_cons_self a l),
      ih fun r hr => h r (List.mem_cons_of_mem a hr)]
    rfl

theorem getLast_filter_key {K : Type} [DecidableEq K] (rows : List (PRow K)) (k : K)
    (h : (rows.filter fun r => r.key = k) ≠ []) :
    (rows.filter fun r => r.key = k).getLast h ∈ rows ∧
      ((rows.filter fun r => r.key = k).getLast h).key = k := by
  have hmem := List.getLast_mem h
  exact ⟨(List.mem_filter.mp hmem).1, by simpa using (List.mem_filter.mp hmem).2⟩

theorem groupRec_date_last {K : Type} [DecidableEq K] (rows : List (PRow K)) (k : K)
    (h : (rows.filter fun r => r.key = k) ≠ []) :
    (groupRec rows k).date_last = ((rows.filter fun r => r.key = k).getLast h).date := by
  rw [groupRec]
  simp only [List.getLast?_eq_getLast _ h]
  rfl

theorem groupRecs_filter_eq {K : Type} [DecidableEq K] (rows : List (PRow K))
    (hnd : (rows.map (·.date)).Nodup) (r : PRow K) (hr : r ∈ rows) :
    ((groupRecs rows).filter fun g => g.date_last = r.date) =
      (if (rows.filter fun x => x.key = r.key).getLast? = some r
       then [groupRec rows r.key] else []) := by
  rw [groupRecs, List.filter_map]
  have hkmem : r.key ∈ groupKeys rows :=
    (mem_groupKeys_iff rows r.key).mpr (by
      intro hnil
      have hmem : r ∈ rows.filter fun x => x.key = r.key :=
        List.mem_filter.mpr ⟨hr, by simp⟩
      rw [hnil] at hmem
      exact absurd hmem (List.not_mem_nil r))
  have hchar : ∀ k ∈ groupKeys rows,
      ((fun g => decide (g.date_last = r.date)) ∘ groupRec rows) k = true ↔
        (k = r.key ∧ (rows.filter fun x => x.key = r.key).getLast? = some r) := by
    intro k hk
    have hne : (rows.filter fun x => x.key = k) ≠ [] := (mem_groupKeys_iff rows k).mp hk
    obtain ⟨hLmem, hLkey⟩ := getLast_filter_key rows k hne
    rw [Function.comp_apply, decide_eq_true_eq, groupRec_date_last rows k hne]
    constructor
    · intro hdate
      have hLr : (rows.filter fun x => x.key = k).getLast hne = r :=
        date_inj hnd hLmem hr hdate
      have hkey : k = r.key := by rw [← hLr, hLkey]
      refine ⟨hkey, ?_⟩
      rw [← hkey, List.getLast?_eq_getLast _ hne, hLr]
    · rintro ⟨rfl, hlast⟩
      rw [List.getLast?_eq_getLast _ hne] at hlast
      rw [Option.some_inj.mp hlast]
  by_cases hcond : (rows.filter fun x => x.key = r.key).getLast? = some r
  · rw [if_pos hcond]
    have hsingle : (groupKeys rows).filter
        ((fun g => decide (g.date_last = r.date)) ∘ groupRec rows) = [r.key] := by
      refine filter_eq_singleton_of_mem (List.nodup_dedup _) hkmem fun k hk => ?_
      rw [hchar k hk]
      constructor
      · rintro ⟨hke, _⟩; exact hke
      · rintro rfl; exact ⟨rfl, hcond⟩
    rw [hsingle]
    try rfl
  · rw [if_neg hcond]
    have hnil : (groupKeys rows).filter
        ((fun g => decide (g.date_last = r.date)) ∘ groupRec rows) = [] := by
      rw [List.filter_eq_nil_iff]
      intro k hk hpk
      exact hcond ((hchar k hk).mp hpk).2
    rw [hnil]
    try rfl

theorem calculate_grouped_returns_char {K : Type} [DecidableEq K] (rows : List (PRow K))
    (hnd : (rows.map (·.date)).Nodup) :
    calculate_grouped_returns rows = rows.map fun r =>
      (r, if (rows.filter fun x => x.key = r.key).getLast? = some r
          then some ((groupRec rows r.key).ret) else none) := by
  rw [calculate_grouped_returns, mergeLeft]
  refine flatMap_singleton_eq_map _ _ rows fun r hr => ?_
  rw [groupRecs_filter_eq rows hnd r hr]
  by_cases hcond : (rows.filter fun x => x.key = r.key).getLast? = some r
  · rw [if_pos hcond, if_pos hcond]
    try rfl
  · rw [if_neg hcond, if_neg hcond]
    try rfl

theorem getLast_date_is_max {K : Type} (l : List (PRow K))
    (hp : l.Pairwise fun a b => a.date < b.date) (h : l ≠ []) :
    ∀ x ∈ l, x.date ≤ (l.getLast h).date := by
  induction l with
  | nil => simp
  | cons a l ih =>
    intro x hx
    rcases eq_or_ne l [] with rfl | hl
    · rcases List.mem_cons.mp hx with rfl | h2
      · exact le_refl _
      · exact absurd h2 (List.not_mem_nil x)
    · rw [List.getLast_cons hl]
      rcases List.mem_cons.mp hx with rfl | h2
      · exact le_of_lt (List.rel_of_pairwise_cons hp (List.getLast_mem hl))
      · exact ih (List.Pairwise.of_cons hp) hl x h2

theorem maximum_map_date {K : Type} (l : List (PRow K))
    (hp : l.Pairwise fun a b => a.date < b.date) (h : l ≠ []) :
    (l.map (·.date)).maximum = ((l.getLast h).date : WithBot ℤ) := by
  rw [List.maximum_eq_coe_iff]
  refine ⟨List.mem_map_of_mem _ (List.getLast_mem h), ?_⟩
  intro b hb
  rcases List.mem_map.mp hb with ⟨x, hx, rfl⟩
  exact getLast_date_is_max l hp h x hx

theorem getLast_eq_iff_maximum {K : Type} [DecidableEq K] (rows : List (PRow K))
    (hs : rows.Pairwise fun a b => a.date < b.date)
    (hnd : (rows.map (·.date)).Nodup) (r : PRow K) (hr : r ∈ rows) :
    (rows.filter fun x => x.key = r.key).getLast? = some r ↔
      ((rows.filter fun x => x.key = r.key).map (·.date)).maximum = (r.date : WithBot ℤ) := by
  have hg : (rows.filter fun x => x.key = r.key).Pairwise fun a b => a.date < b.date :=
    List.Pairwise.sublist (List.filter_sublist rows) hs
  constructor
  · intro h
    have hne : (rows.filter fun x => x.key = r.key) ≠ [] := by
      intro h0
      rw [h0] at h
      exact absurd h (by simp)
    rw [List.getLast?_eq_getLast _ hne] at h
    rw [maximum_map_date _ hg hne]
    try rw [Option.some_inj.mp h]
  · intro h
    have hne : (rows.filter fun x => x.key = r.key) ≠ [] := by
      intro h0
      rw [h0] at h
      simp at h
    rw [maximum_map_date _ hg hne] at h
    have hdate : ((rows.filter fun x => x.key = r.key).getLast hne).date = r.date := by
      exact_mod_cast h
    have hLmem : (rows.filter fun x => x.key = r.key).getLast hne ∈ rows :=
      (List.mem_filter.mp (List.getLast_mem hne)).1
    rw [List.getLast?_eq_getLast _ hne, date_inj hnd hLmem hr hdate]

theorem nodup_dates_of_sorted {K : Type} {rows : List (PRow K)}
    (hs : rows.Pairwise fun a b => a.date < b.date) : (rows.map (·.date)).Nodup :=
  List.Pairwise.imp ne_of_lt (List.Pairwise.map _ (fun _ _ h => h) hs)

theorem nodup_rows_of_sorted {K : Type} {rows : List (PRow K)}
    (hs : rows.Pairwise fun a b => a.date < b.date) : rows.Nodup :=
  List.Pairwise.imp (fun h he => absurd (he ▸ h) (lt_irrefl _)) hs

/-- C3: For a series of rows with strictly increasing dates, grouped by
any composite key: `calculate_grouped_returns` pairs every row, in order,
with a value that is non-null exactly on the row whose date is the maximum
date of its bucket, the value being `(last - first)/first` of the buckets
price column taken by original row order; and for every bucket key exactly
one output row of that bucket carries a non-null value. -/
theorem c3_grouped_returns_bucket_last {K : Type} [DecidableEq K] (rows : List (PRow K))
    (hs : rows.Pairwise fun a b => a.date < b.date) :
    (calculate_grouped_returns rows = rows.map fun r =>
      (r, if ((rows.filter fun x => x.key = r.key).map (·.date)).maximum = (r.date : WithBot ℤ)
          then some ((((rows.filter fun x => x.key = r.key).map (·.price)).getLast?.getD 0 -
                      ((rows.filter fun x => x.key = r.key).map (·.price)).head?.getD 0) /
                     ((rows.filter fun x => x.key = r.key).map (·.price)).head?.getD 0)
          else none)) ∧
    (∀ k ∈ rows.map (·.key),
      ((calculate_grouped_returns rows).countP fun p =>
        decide (p.1.key = k) && p.2.isSome) = 1) := by
  have hnd : (rows.map (·.date)).Nodup := nodup_dates_of_sorted hs
  constructor
  · rw [calculate_grouped_returns_char rows hnd]
    refine List.map_congr_left fun r hr => ?_
    have hiff := getLast_eq_iff_maximum rows hs hnd r hr
    have hval : (groupRec rows r.key).ret =
        (((rows.filter fun x => x.key = r.key).map (·.price)).getLast?.getD 0 -
          ((rows.filter fun x => x.key = r.key).map (·.price)).head?.getD 0) /
          ((rows.filter fun x => x.key = r.key).map (·.price)).head?.getD 0 := by
      rw [groupRec, List.head?_map, List.getLast?_map]
      try rfl
    rw [Prod.mk.injEq]
    exact ⟨rfl, if_congr hiff (by rw [hval]) rfl⟩
  · intro k hk
    rw [calculate_grouped_returns_char rows hnd, List.countP_map]
    have hne : (rows.filter fun x => x.key = k) ≠ [] :=
      (mem_groupKeys_iff rows k).mp (by rwa [groupKeys, List.mem_dedup])
    obtain ⟨hLmem, hLkey⟩ := getLast_filter_key rows k hne
    have hLlast : (rows.filter fun x => x.key = k).getLast? =
        some ((rows.filter fun x => x.key = k).getLast hne) :=
      List.getLast?_eq_getLast _ hne
    have hcongr : (rows.countP
        ((fun p : PRow K × Option ℚ => decide (p.1.key = k) && p.2.isSome) ∘
          fun r => (r, if (rows.filter fun x => x.key = r.key).getLast? = some r
            then some ((groupRec rows r.key).ret) else none))) =
        rows.countP fun r => r == (rows.filter fun x => x.key = k).getLast hne := by
      refine List.countP_congr fun r hr => ?_
      simp only [Function.comp_apply, Bool.and_eq_true, decide_eq_true_eq, beq_iff_eq]
      constructor
      · rintro ⟨hk1, h2⟩
        by_cases hc : (rows.filter fun x => x.key = r.key).getLast? = some r
        · simp only [hk1] at hc
          rw [hLlast] at hc
          exact (Option.some_inj.mp hc).symm
        · rw [if_neg hc] at h2
          simp at h2
      · rintro rfl
        refine ⟨hLkey, ?_⟩
        have hpredeq : (fun x : PRow K =>
            decide (x.key = ((rows.filter fun x => x.key = k).getLast hne).key)) =
            fun x : PRow K => decide (x.key = k) := by
          funext x
          rw [hLkey]
        rw [hpredeq, hLlast, if_pos rfl]
        rfl
    rw [hcongr, ← List.count_eq_countP]
    exact List.count_eq_one_of_mem (nodup_rows_of_sorted hs) hLmem

/-- Witness for C3: two buckets (keys 0 and 1) of two rows each, dates
strictly increasing. -/
theorem c3_grouped_returns_bucket_last_witness :
    let R : List (PRow ℕ) := [⟨1, 10, 0⟩, ⟨2, 20, 0⟩, ⟨3, 5, 1⟩, ⟨4, 10, 1⟩]
    (R.Pairwise fun a b => a.date < b.date) ∧
    ((calculate_grouped_returns R = R.map fun r =>
      (r, if ((R.filter fun x => x.key = r.key).map (·.date)).maximum = (r.date : WithBot ℤ)
          then some ((((R.filter fun x => x.key = r.key).map (·.price)).getLast?.getD 0 -
                      ((R.filter fun x => x.key = r.key).map (·.price)).head?.getD 0) /
                     ((R.filter fun x => x.key = r.key).map (·.price)).head?.getD 0)
          else none)) ∧
    (∀ k ∈ R.map (·.key),
      ((calculate_grouped_returns R).countP fun p =>
        decide (p.1.key = k) && p.2.isSome) = 1)) :=
  ⟨by decide, c3_grouped_returns_bucket_last _ (by decide)⟩

/-- C7: Every transformation returns an augmented copy that carries the
source rows unchanged: projecting the added columns away recovers the input
series exactly (for the grouped-returns join, on any series with pairwise
distinct dates), the MACD result stores the untouched price column, and the
period reducer returns a sublist of its input.  In-place mutation of the
the caller table does not exist in this pure embedding, so reusing one input
across several transformations cannot cross-contaminate. -/
theorem c7_transformations_pure (K : Type) [DecidableEq K] :
    (∀ rows : List SDate, (add_year_month_quarter rows).map Prod.fst = rows) ∧
    (∀ (w : ℕ) (xs : List ℚ), (simple_moving_average w xs).map Prod.fst = xs) ∧
    (∀ (w : ℕ) (xs : List ℚ), (exp_moving_average w xs).map Prod.fst = xs) ∧
    (∀ xs : List ℚ, (macd xs).price = xs) ∧
    (∀ xs : List ℚ, (calculate_daily_returns xs).map Prod.fst = xs) ∧
    (∀ rows : List (PRow K), (rows.map (·.date)).Nodup →
      (calculate_grouped_returns rows).map Prod.fst = rows) ∧
    (∀ (rows : List SDate) (p : String) (out : List SDate),
      reduce_data_period rows p = .ok out → out.Sublist rows) := by
  refine ⟨?_, ?_, ?_, fun xs => rfl, ?_, ?_, ?_⟩
  · intro rows
    rw [add_year_month_quarter, List.map_map]
    exact (List.map_congr_left fun a _ => rfl).trans (List.map_id rows)
  · intro w xs
    exact List.map_fst_zip _ _ (by simp [rollingMeanCol])
  · intro w xs
    exact List.map_fst_zip _ _ (by simp [ewmMean_length])
  · intro xs
    exact List.map_fst_zip _ _ (by simp)
  · intro rows hnd
    rw [calculate_grouped_returns_char rows hnd, List.map_map]
    exact (List.map_congr_left fun a _ => rfl).trans (List.map_id rows)
  · intro rows p out h
    by_cases hmax : p = "max"
    · rw [reduce_data_period, if_pos hmax] at h
      injection h with h2
      rw [← h2]
    · rw [reduce_data_period, if_neg hmax] at h
      rcases hp2 : parseInt (p.dropRight 1) with _ | q
      · rw [hp2] at h
        exact absurd h (by simp)
      · rw [hp2] at h
        have h2 : (if p.back = 'd' then
              Except.ok (rows.filter fun r => decide (toDays (maxD rows) - q ≤ toDays r))
            else if p.back = 'm' then
              Except.ok (rows.filter fun r => decide (toDays (subMonths (maxD rows) q) ≤ toDays r))
            else if p.back = 'y' then
              Except.ok (rows.filter fun r => decide (toDays (subYears (maxD rows) q) ≤ toDays r))
            else Except.error PeriodError.invalidPeriod) = Except.ok out := h
        split at h2
        · injection h2 with h3
          rw [← h3]
          exact List.filter_sublist _
        · split at h2
          · injection h2 with h3
            rw [← h3]
            exact List.filter_sublist _
          · split at h2
            · injection h2 with h3
              rw [← h3]
              exact List.filter_sublist _
            · exact absurd h2 (by simp)

/-- Witness for C7: the grouped-returns join on a two-row series with
distinct dates, and a concrete `"2d"` reduction returning a sublist. -/
theorem c7_transformations_pure_witness :
    (calculate_grouped_returns [(⟨1, 10, 0⟩ : PRow ℕ), ⟨2, 20, 0⟩]).map Prod.fst =
      [(⟨1, 10, 0⟩ : PRow ℕ), ⟨2, 20, 0⟩] ∧
    ([(⟨2020, 1, 5⟩ : SDate)]).Sublist [⟨2020, 1, 1⟩, ⟨2020, 1, 5⟩] :=
  ⟨(c7_transformations_pure ℕ).2.2.2.2.2.1 _ (by decide),
   (c7_transformations_pure ℕ).2.2.2.2.2.2 [⟨2020, 1, 1⟩, ⟨2020, 1, 5⟩] "2d" [⟨2020, 1, 5⟩]
     (by rfl)⟩
